import Mathlib

/-!
A shallow embedding of `tensortools.py`, a minimal reverse-mode
automatic-differentiation engine over dense numeric arrays.

NumPy float arrays are modelled as a shape together with a flat
row-major list of rationals; the elementwise exponential is abstracted
as a function parameter (its only property used below is its value at
zero, which floating-point `np.exp` computes exactly).  Tensors live in
an arena (`Graph`) and refer to their operands by index, mirroring
Python object identity.  Backward closures are modelled as a tagged
rule stored on the output node and interpreted by `runRule`, which
performs exactly the reads and writes the Python closures perform, in
source order.
-/

namespace TensorTools

/-- Model of a NumPy float array: a shape and the flat row-major list of
entries.  Rationals stand in for IEEE floats; every concrete value used
below is exactly representable.  A 0-dimensional array has shape `[]`
and a single entry. -/
structure Arr where
  shape : List Nat
  vals : List ℚ
deriving DecidableEq

namespace Arr

/-- The 0-dimensional array `np.array(c, dtype=float)` produced when a
plain number is coerced into a `Tensor`. -/
def scalar (c : ℚ) : Arr := ⟨[], [c]⟩

/-- Elementwise map over an array (shape preserved). -/
def map (f : ℚ → ℚ) (a : Arr) : Arr := ⟨a.shape, a.vals.map f⟩

/-- Elementwise negation, `-a` in NumPy. -/
def neg (a : Arr) : Arr := a.map (fun x => -x)

/-- Elementwise binary operation with NumPy scalar broadcasting: a
0-dimensional operand is broadcast against the other operand's shape.
General broadcasting beyond the scalar case is out of scope (the spec
delegates shape checking to the array layer). -/
def map2 (f : ℚ → ℚ → ℚ) (a b : Arr) : Arr :=
  if a.shape = [] then ⟨b.shape, b.vals.map (fun y => f (a.vals.headD 0) y)⟩
  else if b.shape = [] then ⟨a.shape, a.vals.map (fun x => f x (b.vals.headD 0))⟩
  else ⟨a.shape, List.zipWith f a.vals b.vals⟩

/-- Digits of a flat row-major position, last axis first: peeling `p`
against the reversed dimension list. -/
def unposR : List Nat → Nat → List Nat
  | [], _ => []
  | d :: ds, p => p % d :: unposR ds (p / d)

/-- Flat row-major position of a multi-index. -/
def pos (shape idx : List Nat) : Nat :=
  (List.zip shape idx).foldl (fun acc di => acc * di.1 + di.2) 0

/-- NumPy `.T`: reverse the axis order.  The entry of the transpose at
flat position `p` is the original entry at the axis-reversed
multi-index. -/
def transpose (a : Arr) : Arr :=
  ⟨a.shape.reverse,
   (List.range a.vals.length).map (fun p => a.vals.getD (pos a.shape (unposR a.shape p)) 0)⟩

/-- NumPy `@` on two 2-D arrays (the only case the engine exercises);
other ranks raise in NumPy and are given a junk value here, never
relied on. -/
def matmul (a b : Arr) : Arr :=
  match a.shape, b.shape with
  | [m, n], [_, k] =>
    ⟨[m, k], (List.range (m * k)).map (fun p =>
      (List.range n).foldl
        (fun acc l => acc + a.vals.getD (p / k * n + l) 0 * b.vals.getD (l * k + p % k) 0) 0)⟩
  | _, _ => ⟨[], []⟩

end Arr

/-- The backward closure of a node, as a tagged rule over arena indices
(the indices play the role of the Python objects captured by the
closure).  `noop` is the default `lambda: None`. -/
inductive BRule where
  | noop
  | add (selfId otherId outId : Nat)
  | sub (selfId otherId outId : Nat)
  | mul (selfId otherId outId : Nat)
  | div (selfId otherId outId : Nat)
  | matmul (selfId otherId outId : Nat)
  | exp (selfId outId : Nat)
deriving DecidableEq

/-- A graph node, mirroring the attributes set in `Tensor.__init__`.
`components` holds arena indices of the operands. -/
structure Tensor where
  data : Arr
  label : String
  requires_grad : Bool
  grad : Option Arr
  backward : BRule
  shape : List Nat
  components : List Nat
  operator : String
deriving DecidableEq

/-- The constructor `Tensor.__init__`: `grad` starts unset, the backward
rule defaults to a no-op, `shape` is the data's shape, and the operand
collection is de-duplicated (Python stores it as a `set`). -/
def Tensor.make (data : Arr) (label : String := "") (requires_grad : Bool := false)
    (components : List Nat := []) (operator : String := "") : Tensor :=
  ⟨data, label, requires_grad, none, .noop, data.shape, components.dedup, operator⟩

/-- Placeholder returned when an arena index is out of range (Python
object references are always valid; theorems below only dereference
valid indices). -/
def defaultTensor : Tensor := Tensor.make ⟨[], []⟩

instance : Inhabited Tensor := ⟨defaultTensor⟩

/-- The arena of all Tensor objects created so far; a Python object
reference is an index into `nodes`. -/
structure Graph where
  nodes : List Tensor
deriving DecidableEq

namespace Graph

/-- Dereference an arena index. -/
def get (g : Graph) (i : Nat) : Tensor := g.nodes.getD i defaultTensor

/-- Allocate a new node, returning its index. -/
def push (g : Graph) (t : Tensor) : Graph × Nat :=
  (⟨g.nodes ++ [t]⟩, g.nodes.length)

/-- Assign the `grad` attribute of node `i` (the only mutation backward
rules perform). -/
def setGrad (g : Graph) (i : Nat) (o : Option Arr) : Graph :=
  ⟨g.nodes.set i { g.get i with grad := o }⟩

/-- Install a backward rule on node `i` (`out._backward = _backward`). -/
def setRule (g : Graph) (i : Nat) (r : BRule) : Graph :=
  ⟨g.nodes.set i { g.get i with backward := r }⟩

end Graph

/-- Coercion of a non-`Tensor` operand: `Tensor(other, label=str(other))`. -/
def coerce (g : Graph) (c : ℚ) : Graph × Nat :=
  g.push (Tensor.make (Arr.scalar c) (toString c) false [] "")

/-- `Tensor.__add__` on two existing tensors: forward sum, operands
`{self, other}`, tag `"+"`, `requires_grad=True`, and the backward rule
installed unconditionally. -/
def addT (g : Graph) (i j : Nat) : Graph × Nat :=
  let p := g.push (Tensor.make (Arr.map2 (· + ·) (g.get i).data (g.get j).data) "" true [i, j] "+")
  (p.1.setRule p.2 (.add i j p.2), p.2)

/-- `Tensor.__add__` with a plain number on the right: the number is
coerced into a fresh leaf first. -/
def addS (g : Graph) (i : Nat) (c : ℚ) : Graph × Nat :=
  let p := coerce g c
  addT p.1 i p.2

/-- `Tensor.__sub__`: backward rule installed only when
`self.requires_grad`. -/
def subT (g : Graph) (i j : Nat) : Graph × Nat :=
  let p := g.push (Tensor.make (Arr.map2 (· - ·) (g.get i).data (g.get j).data) "" true [i, j] "-")
  if (g.get i).requires_grad then (p.1.setRule p.2 (.sub i j p.2), p.2) else p

/-- `Tensor.__mul__`: backward rule installed only when
`self.requires_grad`. -/
def mulT (g : Graph) (i j : Nat) : Graph × Nat :=
  let p := g.push (Tensor.make (Arr.map2 (· * ·) (g.get i).data (g.get j).data) "" true [i, j] "*")
  if (g.get i).requires_grad then (p.1.setRule p.2 (.mul i j p.2), p.2) else p

/-- `Tensor.__truediv__`: forward `self.data * other.data**-1`; backward
rule installed only when `self.requires_grad`. -/
def divT (g : Graph) (i j : Nat) : Graph × Nat :=
  let p := g.push (Tensor.make
    (Arr.map2 (· * ·) (g.get i).data ((g.get j).data.map (fun x => x ^ (-1 : ℤ))))
    "" true [i, j] "/")
  if (g.get i).requires_grad then (p.1.setRule p.2 (.div i j p.2), p.2) else p

/-- `Tensor.__matmul__`: backward rule installed only when
`self.requires_grad`. -/
def matmulT (g : Graph) (i j : Nat) : Graph × Nat :=
  let p := g.push (Tensor.make (Arr.matmul (g.get i).data (g.get j).data) "" true [i, j] "@")
  if (g.get i).requires_grad then (p.1.setRule p.2 (.matmul i j p.2), p.2) else p

/-- `Tensor.__pow__` with an integer exponent: the exponent is wrapped
in a coerced leaf placed among the operands, and no backward rule is
ever installed. -/
def powT (g : Graph) (i : Nat) (n : ℤ) : Graph × Nat :=
  let p := g.push (Tensor.make (Arr.scalar (n : ℚ)) (toString n) false [] "")
  p.1.push (Tensor.make ((g.get i).data.map (fun x => x ^ n)) "" true [i, p.2] "**")

/-- `Tensor.exp`: forward is the elementwise exponential `E`
(abstracted); backward rule installed only when `self.requires_grad`. -/
def expT (E : ℚ → ℚ) (g : Graph) (i : Nat) : Graph × Nat :=
  let p := g.push (Tensor.make ((g.get i).data.map E) "" true [i] "exp")
  if (g.get i).requires_grad then (p.1.setRule p.2 (.exp i p.2), p.2) else p

/-- Invoke the backward closure stored on node `k`, performing exactly
the attribute reads and writes of the Python closure bodies, in source
order.  Re-reads of `out.grad` after an assignment go through the
updated state, as Python attribute access does.  `none` is returned
when the closure would raise (negating or multiplying an unset
gradient, i.e. `None`). -/
def runRule (E : ℚ → ℚ) (g : Graph) (k : Nat) : Option Graph :=
  match (g.get k).backward with
  | .noop => some g
  | .add i j o =>
    let g1 := g.setGrad i (g.get o).grad
    some (g1.setGrad j (g1.get o).grad)
  | .sub i j o =>
    match (g.get o).grad with
    | none => none
    | some gr =>
      let g1 := g.setGrad i (some gr.neg)
      match (g1.get o).grad with
      | none => none
      | some gr2 => some (g1.setGrad j (some gr2.neg))
  | .mul i j o =>
    match (g.get o).grad with
    | none => none
    | some gr =>
      let g1 := g.setGrad i (some gr.neg)
      match (g1.get o).grad with
      | none => none
      | some gr2 => some (g1.setGrad j (some gr2.neg))
  | .div i j o =>
    match (g.get o).grad with
    | none => none
    | some gr =>
      let g1 := g.setGrad i
        (some (Arr.map2 (· * ·) ((g.get j).data.map (fun x => x ^ (-1 : ℤ))) gr))
      match (g1.get i).grad, (g1.get o).grad with
      | some sg, some gr2 =>
        some (g1.setGrad j (some (Arr.map2 (· * ·)
          (Arr.map2 (· * ·) sg.neg ((g1.get j).data.map (fun x => x ^ (-2 : ℤ)))) gr2)))
      | _, _ => none
  | .matmul i j o =>
    match (g.get o).grad with
    | none => none
    | some gr =>
      let g1 := g.setGrad i (some (Arr.matmul gr ((g.get j).data.transpose)))
      match (g1.get o).grad with
      | none => none
      | some gr2 => some (g1.setGrad j (some (Arr.matmul ((g1.get i).data.transpose) gr2)))
  | .exp i o =>
    match (g.get o).grad with
    | none => none
    | some gr => some (g.setGrad i (some (Arr.map2 (· * ·) ((g.get i).data.map E) gr)))

/-- Factory `zeros(shape, label, requires_grad=True)`. -/
def zeros (shape : List Nat) (label : String := "") (requires_grad : Bool := true) : Tensor :=
  Tensor.make ⟨shape, List.replicate shape.prod 0⟩ label requires_grad

/-- Factory `randn(shape, label, requires_grad=True)`; the global
standard-normal sampler is abstracted as the function `rng` from flat
positions to draws. -/
def randn (rng : Nat → ℚ) (shape : List Nat) (label : String := "")
    (requires_grad : Bool := true) : Tensor :=
  Tensor.make ⟨shape, (List.range shape.prod).map rng⟩ label requires_grad

/-- Insert into a Python `set` modelled as a duplicate-free list. -/
def insertNew {α : Type} [DecidableEq α] (a : α) (l : List α) : List α :=
  if a ∈ l then l else a :: l

/-- The recursive worker `build` inside `draw_function.trace`: a
depth-first walk guarded by the visited set `acc.1`, recording each
`(operand, consumer)` edge in `acc.2` before recursing.  Python's
unbounded recursion is modelled with explicit fuel; any fuel exceeding
the root's index suffices on well-formed arenas. -/
def build (g : Graph) : Nat → Nat → List Nat × List (Nat × Nat) → List Nat × List (Nat × Nat)
  | 0, _, acc => acc
  | fuel + 1, v, acc =>
    if v ∈ acc.1 then acc
    else
      ((g.get v).components).foldl
        (fun acc2 c => build g fuel c (acc2.1, insertNew (c, v) acc2.2))
        (v :: acc.1, acc.2)

/-- `trace(root)`: the visited-node set and the edge set of the walk
from `root`, both starting empty. -/
def trace (g : Graph) (fuel root : Nat) : List Nat × List (Nat × Nat) :=
  build g fuel root ([], [])

/-- Plain reachability by following operand references. -/
inductive Reaches (g : Graph) : Nat → Nat → Prop
  | refl (v : Nat) : Reaches g v v
  | step (v c u : Nat) (hc : c ∈ (g.get v).components) (h : Reaches g c u) : Reaches g v u

/-- Reachability along a path all of whose nodes avoid the visited set
`S`; the invariant of the guarded depth-first walk. -/
inductive AvoidReach (g : Graph) (S : List Nat) : Nat → Nat → Prop
  | refl (v : Nat) (hv : v ∉ S) : AvoidReach g S v v
  | step (v c u : Nat) (hv : v ∉ S) (hc : c ∈ (g.get v).components)
      (h : AvoidReach g S c u) : AvoidReach g S v u

/-- Arena well-formedness: operands are always created before their
consumers, so operand indices strictly decrease along edges.  Every
graph built through the operations above satisfies this. -/
def WF (g : Graph) : Prop :=
  ∀ v < g.nodes.length, ∀ c ∈ (g.get v).components, c < v

instance (g : Graph) : Decidable (WF g) := by
  unfold WF
  infer_instance

/-! Access lemmas for the arena. -/

lemma getD_set_eq {α : Type} : ∀ (l : List α) (i : Nat) (a d : α), i < l.length →
    (l.set i a).getD i d = a
  | [], _, _, _, h => absurd h (by simp)
  | _ :: _, 0, _, _, _ => rfl
  | _ :: xs, i + 1, a, d, h => getD_set_eq xs i a d (Nat.lt_of_succ_lt_succ h)

lemma getD_set_ne {α : Type} : ∀ (l : List α) (i k : Nat) (a d : α), i ≠ k →
    (l.set i a).getD k d = l.getD k d
  | [], _, _, _, _, _ => rfl
  | _ :: _, 0, 0, _, _, h => absurd rfl h
  | _ :: _, 0, _ + 1, _, _, _ => rfl
  | _ :: _, _ + 1, 0, _, _, _ => rfl
  | _ :: xs, i + 1, k + 1, a, d, h =>
    getD_set_ne xs i k a d (fun he => h (by rw [he]))

lemma getD_append_lt {α : Type} : ∀ (l l2 : List α) (i : Nat) (d : α), i < l.length →
    (l ++ l2).getD i d = l.getD i d
  | [], _, _, _, h => absurd h (by simp)
  | _ :: _, _, 0, _, _ => rfl
  | _ :: xs, l2, i + 1, d, h => getD_append_lt xs l2 i d (Nat.lt_of_succ_lt_succ h)

lemma getD_append_len {α : Type} : ∀ (l : List α) (t d : α), (l ++ [t]).getD l.length d = t
  | [], _, _ => rfl
  | _ :: xs, t, d => getD_append_len xs t d

lemma getD_len_le {α : Type} : ∀ (l : List α) (i : Nat) (d : α), l.length ≤ i →
    l.getD i d = d
  | [], _, _, _ => rfl
  | _ :: _, 0, _, h => absurd h (by simp)
  | _ :: xs, i + 1, d, h => getD_len_le xs i d (Nat.le_of_succ_le_succ h)

namespace Graph

lemma length_push (g : Graph) (t : Tensor) :
    (g.push t).1.nodes.length = g.nodes.length + 1 := by
  simp [push]

lemma length_setGrad (g : Graph) (i : Nat) (o : Option Arr) :
    (g.setGrad i o).nodes.length = g.nodes.length := by
  simp [setGrad]

lemma length_setRule (g : Graph) (i : Nat) (r : BRule) :
    (g.setRule i r).nodes.length = g.nodes.length := by
  simp [setRule]

lemma get_push_lt (g : Graph) (t : Tensor) (i : Nat) (h : i < g.nodes.length) :
    (g.push t).1.get i = g.get i :=
  getD_append_lt _ _ _ _ h

lemma get_push_len (g : Graph) (t : Tensor) :
    (g.push t).1.get g.nodes.length = t :=
  getD_append_len _ _ _

lemma get_push_snd (g : Graph) (t : Tensor) :
    (g.push t).1.get (g.push t).2 = t :=
  getD_append_len _ _ _

lemma get_default (g : Graph) (i : Nat) (h : g.nodes.length ≤ i) :
    g.get i = defaultTensor :=
  getD_len_le _ _ _ h

lemma get_setGrad (g : Graph) (i : Nat) (o : Option Arr) (k : Nat) :
    (g.setGrad i o).get k =
      if i = k ∧ i < g.nodes.length then { g.get k with grad := o } else g.get k := by
  by_cases h1 : i = k
  · subst h1
    by_cases h2 : i < g.nodes.length
    · simp only [h2, and_true, if_pos rfl, true_and, if_true]
      exact getD_set_eq _ _ _ _ h2
    · have hlen : g.nodes.length ≤ i := Nat.le_of_not_lt h2
      simp only [h2, and_false, if_false]
      show (g.nodes.set i _).getD i defaultTensor = g.nodes.getD i defaultTensor
      rw [getD_len_le _ _ _ (by simpa using hlen), getD_len_le _ _ _ hlen]
  · simp only [h1, false_and, if_false]
    exact getD_set_ne _ _ _ _ _ h1

lemma get_setRule (g : Graph) (i : Nat) (r : BRule) (k : Nat) :
    (g.setRule i r).get k =
      if i = k ∧ i < g.nodes.length then { g.get k with backward := r } else g.get k := by
  by_cases h1 : i = k
  · subst h1
    by_cases h2 : i < g.nodes.length
    · simp only [h2, and_true, if_pos rfl, true_and, if_true]
      exact getD_set_eq _ _ _ _ h2
    · have hlen : g.nodes.length ≤ i := Nat.le_of_not_lt h2
      simp only [h2, and_false, if_false]
      show (g.nodes.set i _).getD i defaultTensor = g.nodes.getD i defaultTensor
      rw [getD_len_le _ _ _ (by simpa using hlen), getD_len_le _ _ _ hlen]
  · simp only [h1, false_and, if_false]
    exact getD_set_ne _ _ _ _ _ h1

lemma data_setGrad (g : Graph) (i : Nat) (o : Option Arr) (k : Nat) :
    ((g.setGrad i o).get k).data = (g.get k).data := by
  rw [get_setGrad]
  split <;> rfl

lemma backward_setGrad (g : Graph) (i : Nat) (o : Option Arr) (k : Nat) :
    ((g.setGrad i o).get k).backward = (g.get k).backward := by
  rw [get_setGrad]
  split <;> rfl

lemma data_setRule (g : Graph) (i : Nat) (r : BRule) (k : Nat) :
    ((g.setRule i r).get k).data = (g.get k).data := by
  rw [get_setRule]
  split <;> rfl

lemma grad_setRule (g : Graph) (i : Nat) (r : BRule) (k : Nat) :
    ((g.setRule i r).get k).grad = (g.get k).grad := by
  rw [get_setRule]
  split <;> rfl

lemma grad_setGrad_eq (g : Graph) (i : Nat) (o : Option Arr) (h : i < g.nodes.length) :
    ((g.setGrad i o).get i).grad = o := by
  rw [get_setGrad]
  simp [h]

lemma grad_setGrad_ne (g : Graph) (i : Nat) (o : Option Arr) (k : Nat) (h : i ≠ k) :
    ((g.setGrad i o).get k).grad = (g.get k).grad := by
  rw [get_setGrad]
  simp [h]

end Graph

lemma addT_snd (g : Graph) (i j : Nat) : (addT g i j).2 = g.nodes.length := rfl

lemma addT_out (g : Graph) (i j : Nat) :
    (addT g i j).1.get (addT g i j).2 =
      { Tensor.make (Arr.map2 (· + ·) (g.get i).data (g.get j).data) "" true [i, j] "+"
          with backward := .add i j g.nodes.length } := by
  show ((Graph.push g _).1.setRule g.nodes.length _).get g.nodes.length = _
  rw [Graph.get_setRule]
  rw [if_pos ⟨rfl, by rw [Graph.length_push]; exact Nat.lt_succ_self _⟩]
  rw [Graph.get_push_len]
  rfl

lemma subT_out (g : Graph) (i j : Nat) :
    (subT g i j).1.get (subT g i j).2 =
      (if (g.get i).requires_grad then
        { Tensor.make (Arr.map2 (· - ·) (g.get i).data (g.get j).data) "" true [i, j] "-"
            with backward := .sub i j g.nodes.length }
      else Tensor.make (Arr.map2 (· - ·) (g.get i).data (g.get j).data) "" true [i, j] "-") := by
  cases h : (g.get i).requires_grad with
  | false =>
    simp only [subT, h, Bool.false_eq_true, if_false]
    exact Graph.get_push_len _ _
  | true =>
    simp only [subT, h, if_true]
    rw [Graph.get_setRule]
    rw [if_pos ⟨rfl, by rw [Graph.length_push]; exact Nat.lt_succ_self _⟩]
    rw [Graph.get_push_snd]
    rfl

lemma mulT_out (g : Graph) (i j : Nat) :
    (mulT g i j).1.get (mulT g i j).2 =
      (if (g.get i).requires_grad then
        { Tensor.make (Arr.map2 (· * ·) (g.get i).data (g.get j).data) "" true [i, j] "*"
            with backward := .mul i j g.nodes.length }
      else Tensor.make (Arr.map2 (· * ·) (g.get i).data (g.get j).data) "" true [i, j] "*") := by
  cases h : (g.get i).requires_grad with
  | false =>
    simp only [mulT, h, Bool.false_eq_true, if_false]
    exact Graph.get_push_len _ _
  | true =>
    simp only [mulT, h, if_true]
    rw [Graph.get_setRule]
    rw [if_pos ⟨rfl, by rw [Graph.length_push]; exact Nat.lt_succ_self _⟩]
    rw [Graph.get_push_snd]
    rfl

lemma divT_out (g : Graph) (i j : Nat) :
    (divT g i j).1.get (divT g i j).2 =
      (if (g.get i).requires_grad then
        { Tensor.make (Arr.map2 (· * ·) (g.get i).data
              ((g.get j).data.map (fun x => x ^ (-1 : ℤ)))) "" true [i, j] "/"
            with backward := .div i j g.nodes.length }
      else Tensor.make (Arr.map2 (· * ·) (g.get i).data
          ((g.get j).data.map (fun x => x ^ (-1 : ℤ)))) "" true [i, j] "/") := by
  cases h : (g.get i).requires_grad with
  | false =>
    simp only [divT, h, Bool.false_eq_true, if_false]
    exact Graph.get_push_len _ _
  | true =>
    simp only [divT, h, if_true]
    rw [Graph.get_setRule]
    rw [if_pos ⟨rfl, by rw [Graph.length_push]; exact Nat.lt_succ_self _⟩]
    rw [Graph.get_push_snd]
    rfl

lemma matmulT_out (g : Graph) (i j : Nat) :
    (matmulT g i j).1.get (matmulT g i j).2 =
      (if (g.get i).requires_grad then
        { Tensor.make (Arr.matmul (g.get i).data (g.get j).data) "" true [i, j] "@"
            with backward := .matmul i j g.nodes.length }
      else Tensor.make (Arr.matmul (g.get i).data (g.get j).data) "" true [i, j] "@") := by
  cases h : (g.get i).requires_grad with
  | false =>
    simp only [matmulT, h, Bool.false_eq_true, if_false]
    exact Graph.get_push_len _ _
  | true =>
    simp only [matmulT, h, if_true]
    rw [Graph.get_setRule]
    rw [if_pos ⟨rfl, by rw [Graph.length_push]; exact Nat.lt_succ_self _⟩]
    rw [Graph.get_push_snd]
    rfl

lemma powT_out (g : Graph) (i : Nat) (n : ℤ) :
    (powT g i n).1.get (powT g i n).2 =
      Tensor.make ((g.get i).data.map (fun x => x ^ n)) "" true [i, g.nodes.length] "**" :=
  Graph.get_push_len _ _

lemma expT_out (E : ℚ → ℚ) (g : Graph) (i : Nat) :
    (expT E g i).1.get (expT E g i).2 =
      (if (g.get i).requires_grad then
        { Tensor.make ((g.get i).data.map E) "" true [i] "exp"
            with backward := .exp i g.nodes.length }
      else Tensor.make ((g.get i).data.map E) "" true [i] "exp") := by
  cases h : (g.get i).requires_grad with
  | false =>
    simp only [expT, h, Bool.false_eq_true, if_false]
    exact Graph.get_push_len _ _
  | true =>
    simp only [expT, h, if_true]
    rw [Graph.get_setRule]
    rw [if_pos ⟨rfl, by rw [Graph.length_push]; exact Nat.lt_succ_self _⟩]
    rw [Graph.get_push_snd]
    rfl

/-- The claim C3 property: the backward rule of `out` replaces the no-op
default exactly when `self.requires_grad` for subtract, multiply,
divide, matmul; unconditionally for add; never for power. -/
theorem claim_C3_rule_installation (g : Graph) (i j : Nat) (n : ℤ) :
    (((subT g i j).1.get (subT g i j).2).backward
        = if (g.get i).requires_grad then .sub i j g.nodes.length else .noop) ∧
    (((mulT g i j).1.get (mulT g i j).2).backward
        = if (g.get i).requires_grad then .mul i j g.nodes.length else .noop) ∧
    (((divT g i j).1.get (divT g i j).2).backward
        = if (g.get i).requires_grad then .div i j g.nodes.length else .noop) ∧
    (((matmulT g i j).1.get (matmulT g i j).2).backward
        = if (g.get i).requires_grad then .matmul i j g.nodes.length else .noop) ∧
    ((addT g i j).1.get (addT g i j).2).backward = .add i j g.nodes.length ∧
    ((powT g i n).1.get (powT g i n).2).backward = .noop := by
  refine ⟨?_, ?_, ?_, ?_, ?_, ?_⟩
  · cases h : (g.get i).requires_grad <;> simp [subT_out, h, Tensor.make]
  · cases h : (g.get i).requires_grad <;> simp [mulT_out, h, Tensor.make]
  · cases h : (g.get i).requires_grad <;> simp [divT_out, h, Tensor.make]
  · cases h : (g.get i).requires_grad <;> simp [matmulT_out, h, Tensor.make]
  · rw [addT_out]
  · rw [powT_out]
    rfl

/-- The claim C9 property: `zeros` and `randn` produce leaves of the
requested shape (with all-zero entries for `zeros`), defaulting
`requires_grad` to true, while the bare constructor defaults it to
false. -/
theorem claim_C9_factories (rng : Nat → ℚ) (d : Arr) (l : String) :
    (zeros [2, 3]).shape = [2, 3] ∧
    (∀ x ∈ (zeros [2, 3]).data.vals, x = 0) ∧
    (randn rng [2, 3]).shape = [2, 3] ∧
    (zeros [2, 3]).requires_grad = true ∧
    (randn rng [2, 3]).requires_grad = true ∧
    (zeros [2, 3]).components = [] ∧
    (zeros [2, 3]).operator = "" ∧
    (randn rng [2, 3]).components = [] ∧
    (randn rng [2, 3]).operator = "" ∧
    (Tensor.make d l).requires_grad = false := by
  refine ⟨rfl, ?_, rfl, rfl, rfl, rfl, rfl, rfl, rfl, rfl⟩
  intro x hx
  exact List.eq_of_mem_replicate hx

/-- The claim C5 property: for all Tensors `a`, `b`, `out = a + b` has
`data = a.data + b.data`, operand set `{a, b}`, tag `"+"`, and
`requires_grad` unconditionally true. -/
theorem claim_C5_add_forward (g : Graph) (i j : Nat) :
    ((addT g i j).1.get (addT g i j).2).data
        = Arr.map2 (· + ·) (g.get i).data (g.get j).data ∧
    ((addT g i j).1.get (addT g i j).2).components = [i, j].dedup ∧
    ((addT g i j).1.get (addT g i j).2).operator = "+" ∧
    ((addT g i j).1.get (addT g i j).2).requires_grad = true := by
  rw [addT_out]
  exact ⟨rfl, rfl, rfl, rfl⟩

/-- Effect of invoking a multiply backward rule stored on node `n`, for
any graph: both operands receive the negated upstream gradient. -/
lemma runRule_mul (E : ℚ → ℚ) (h : Graph) (i j n : Nat) (gr : Arr)
    (hi : i < n) (hj : j < n) (hn : n < h.nodes.length)
    (hb : (h.get n).backward = .mul i j n) :
    runRule E (h.setGrad n (some gr)) n =
      some (((h.setGrad n (some gr)).setGrad i (some gr.neg)).setGrad j (some gr.neg)) ∧
    ((((h.setGrad n (some gr)).setGrad i (some gr.neg)).setGrad j (some gr.neg)).get i).grad
        = some gr.neg ∧
    ((((h.setGrad n (some gr)).setGrad i (some gr.neg)).setGrad j (some gr.neg)).get j).grad
        = some gr.neg := by
  have hb2 : ((h.setGrad n (some gr)).get n).backward = .mul i j n := by
    rw [Graph.backward_setGrad]
    exact hb
  have hg2 : ((h.setGrad n (some gr)).get n).grad = some gr :=
    Graph.grad_setGrad_eq _ _ _ hn
  have hg3 : (((h.setGrad n (some gr)).setGrad i (some gr.neg)).get n).grad = some gr := by
    rw [Graph.grad_setGrad_ne _ _ _ _ (Nat.ne_of_lt hi)]
    exact hg2
  refine ⟨?_, ?_, ?_⟩
  · simp only [runRule, hb2, hg2, hg3]
  · by_cases hji : j = i
    · subst hji
      exact Graph.grad_setGrad_eq _ _ _
        (by rw [Graph.length_setGrad, Graph.length_setGrad]; exact lt_trans hj hn)
    · rw [Graph.grad_setGrad_ne _ _ _ _ hji]
      exact Graph.grad_setGrad_eq _ _ _
        (by rw [Graph.length_setGrad]; exact lt_trans hi hn)
  · exact Graph.grad_setGrad_eq _ _ _
      (by rw [Graph.length_setGrad, Graph.length_setGrad]; exact lt_trans hj hn)

/-- The claim C1 property: for `out = a * b` with `a.requires_grad`,
invoking `out`'s backward rule after seeding `out.grad` assigns
`a.grad = -out.grad` and `b.grad = -out.grad` exactly (the non-standard
rule). -/
theorem claim_C1_mul_backward (E : ℚ → ℚ) (g : Graph) (i j : Nat) (gr : Arr)
    (hi : i < g.nodes.length) (hj : j < g.nodes.length)
    (hrg : (g.get i).requires_grad = true) :
    ∃ gf, runRule E ((mulT g i j).1.setGrad (mulT g i j).2 (some gr)) (mulT g i j).2 = some gf ∧
      (gf.get i).grad = some gr.neg ∧ (gf.get j).grad = some gr.neg := by
  have h2 : (mulT g i j).2 = g.nodes.length := by
    simp only [mulT, hrg, if_true]
    rfl
  have hlen : g.nodes.length < (mulT g i j).1.nodes.length := by
    simp [mulT, hrg, Graph.length_setRule, Graph.length_push]
  have hb : ((mulT g i j).1.get g.nodes.length).backward = .mul i j g.nodes.length := by
    have := mulT_out g i j
    rw [h2] at this
    rw [this, if_pos hrg]
  rw [h2]
  obtain ⟨h1, hgi, hgj⟩ := runRule_mul E (mulT g i j).1 i j g.nodes.length gr hi hj hlen hb
  exact ⟨_, h1, hgi, hgj⟩

/-- Effect of invoking an add backward rule stored on node `n`: both
operands receive `out.grad` itself (never a failure: add's closure only
copies the attribute). -/
lemma runRule_add (E : ℚ → ℚ) (h : Graph) (i j n : Nat) (gr : Arr)
    (hi : i < n) (hj : j < n) (hn : n < h.nodes.length)
    (hb : (h.get n).backward = .add i j n) :
    runRule E (h.setGrad n (some gr)) n =
      some (((h.setGrad n (some gr)).setGrad i (some gr)).setGrad j (some gr)) ∧
    ((((h.setGrad n (some gr)).setGrad i (some gr)).setGrad j (some gr)).get i).grad
        = some gr ∧
    ((((h.setGrad n (some gr)).setGrad i (some gr)).setGrad j (some gr)).get j).grad
        = some gr := by
  have hb2 : ((h.setGrad n (some gr)).get n).backward = .add i j n := by
    rw [Graph.backward_setGrad]
    exact hb
  have hg2 : ((h.setGrad n (some gr)).get n).grad = some gr :=
    Graph.grad_setGrad_eq _ _ _ hn
  have hg3 : (((h.setGrad n (some gr)).setGrad i (some gr)).get n).grad = some gr := by
    rw [Graph.grad_setGrad_ne _ _ _ _ (Nat.ne_of_lt hi)]
    exact hg2
  refine ⟨?_, ?_, ?_⟩
  · simp only [runRule, hb2, hg2, hg3]
  · by_cases hji : j = i
    · subst hji
      exact Graph.grad_setGrad_eq _ _ _
        (by rw [Graph.length_setGrad, Graph.length_setGrad]; exact lt_trans hj hn)
    · rw [Graph.grad_setGrad_ne _ _ _ _ hji]
      exact Graph.grad_setGrad_eq _ _ _
        (by rw [Graph.length_setGrad]; exact lt_trans hi hn)
  · exact Graph.grad_setGrad_eq _ _ _
      (by rw [Graph.length_setGrad, Graph.length_setGrad]; exact lt_trans hj hn)

lemma get_setRule_push_lt (g : Graph) (t : Tensor) (r : BRule) (k : Nat)
    (hk : k < g.nodes.length) :
    ((g.push t).1.setRule (g.push t).2 r).get k = g.get k := by
  rw [Graph.get_setRule, if_neg, Graph.get_push_lt _ _ _ hk]
  intro hand
  exact absurd hand.1 (Nat.ne_of_gt hk)

lemma addT_get_lt (g : Graph) (i j k : Nat) (hk : k < g.nodes.length) :
    (addT g i j).1.get k = g.get k :=
  get_setRule_push_lt _ _ _ _ hk

/-- Amended claim C2: a gradient populated by add's backward rule equals
`out.grad` itself, so its shape is `out.grad`'s shape; it coincides with
the operand's own data shape exactly when those shapes agree (which
fails for a coerced scalar operand). -/
theorem claim_C2_grad_shape_amended (E : ℚ → ℚ) (g : Graph) (i j : Nat) (gr : Arr)
    (hi : i < g.nodes.length) (hj : j < g.nodes.length) :
    ∃ gf, runRule E ((addT g i j).1.setGrad (addT g i j).2 (some gr)) (addT g i j).2 = some gf ∧
      (gf.get i).grad = some gr ∧ (gf.get j).grad = some gr ∧
      ((g.get i).data.shape = gr.shape →
        (gf.get i).grad.map Arr.shape = some (gf.get i).data.shape) ∧
      ((g.get j).data.shape = gr.shape →
        (gf.get j).grad.map Arr.shape = some (gf.get j).data.shape) := by
  have h2 : (addT g i j).2 = g.nodes.length := rfl
  have hlen : g.nodes.length < (addT g i j).1.nodes.length := by
    show g.nodes.length < (Graph.setRule _ _ _).nodes.length
    rw [Graph.length_setRule, Graph.length_push]
    exact Nat.lt_succ_self _
  have hb : ((addT g i j).1.get g.nodes.length).backward = .add i j g.nodes.length := by
    have := addT_out g i j
    rw [h2] at this
    rw [this]
  rw [h2]
  obtain ⟨h1, hgi, hgj⟩ := runRule_add E (addT g i j).1 i j g.nodes.length gr hi hj hlen hb
  refine ⟨_, h1, hgi, hgj, ?_, ?_⟩
  · intro hsh
    rw [hgi]
    have hdata : (((((addT g i j).1.setGrad g.nodes.length (some gr)).setGrad i
        (some gr)).setGrad j (some gr)).get i).data = (g.get i).data := by
      rw [Graph.data_setGrad, Graph.data_setGrad, Graph.data_setGrad, addT_get_lt _ _ _ _ hi]
    rw [hdata]
    show some gr.shape = some (g.get i).data.shape
    rw [hsh]
  · intro hsh
    rw [hgj]
    have hdata : (((((addT g i j).1.setGrad g.nodes.length (some gr)).setGrad i
        (some gr)).setGrad j (some gr)).get j).data = (g.get j).data := by
      rw [Graph.data_setGrad, Graph.data_setGrad, Graph.data_setGrad, addT_get_lt _ _ _ _ hj]
    rw [hdata]
    show some gr.shape = some (g.get j).data.shape
    rw [hsh]

/-- Leaf `a = Tensor([1.0, 2.0])`. -/
def c2g0 : Graph := ⟨[Tensor.make ⟨[2], [1, 2]⟩ "a" true]⟩

/-- `out = a + 5`: coerces `5` to a scalar leaf (index 1), output at
index 2. -/
def c2p : Graph × Nat := addS c2g0 0 5

/-- Seed `out.grad = ones_like(out.data)`. -/
def c2seed : Graph := c2p.1.setGrad c2p.2 (some ⟨[2], [1, 1]⟩)

/-- State after invoking `out`'s backward rule. -/
def c2run : Graph := (runRule id c2seed c2p.2).getD ⟨[]⟩

/-- Counterexample to claim C2: after `out = a + 5` with
`a.shape = (2,)`, invoking the backward rule populates the coerced
scalar leaf's grad with an array of shape `(2,)`, while the leaf's own
data has shape `()`. -/
theorem claim_C2_counterexample :
    (runRule id c2seed c2p.2).isSome = true ∧
    (c2run.get 1).grad.map Arr.shape = some [2] ∧
    (c2run.get 1).data.shape = [] ∧
    (c2run.get 1).grad.map Arr.shape ≠ some (c2run.get 1).data.shape := by
  decide

/-- The array divide's backward rule assigns to `self.grad`:
`other.data**-1 * out.grad`. -/
def divSelfGrad (b gr : Arr) : Arr :=
  Arr.map2 (· * ·) (b.map (fun x => x ^ (-1 : ℤ))) gr

/-- The array divide's backward rule assigns to `other.grad`:
`-self.grad * other.data**-2 * out.grad`, with `self.grad` the value the
rule itself just assigned. -/
def divOtherGrad (b gr : Arr) : Arr :=
  Arr.map2 (· * ·)
    (Arr.map2 (· * ·) (divSelfGrad b gr).neg (b.map (fun x => x ^ (-2 : ℤ)))) gr

/-- Effect of invoking a subtract backward rule stored on node `n` of an
already-seeded graph: both operands receive the negated upstream
gradient. -/
lemma runRule_sub (E : ℚ → ℚ) (h : Graph) (i j n : Nat) (gr : Arr)
    (hi : i < n) (hj : j < n) (hn : n < h.nodes.length)
    (hb : (h.get n).backward = .sub i j n)
    (hg : (h.get n).grad = some gr) :
    runRule E h n = some ((h.setGrad i (some gr.neg)).setGrad j (some gr.neg)) ∧
    (((h.setGrad i (some gr.neg)).setGrad j (some gr.neg)).get j).grad = some gr.neg ∧
    (((h.setGrad i (some gr.neg)).setGrad j (some gr.neg)).get i).grad = some gr.neg := by
  have hg3 : ((h.setGrad i (some gr.neg)).get n).grad = some gr := by
    rw [Graph.grad_setGrad_ne _ _ _ _ (Nat.ne_of_lt hi)]
    exact hg
  refine ⟨?_, ?_, ?_⟩
  · simp only [runRule, hb, hg, hg3]
  · exact Graph.grad_setGrad_eq _ _ _
      (by rw [Graph.length_setGrad]; exact lt_trans hj hn)
  · by_cases hji : j = i
    · subst hji
      exact Graph.grad_setGrad_eq _ _ _
        (by rw [Graph.length_setGrad]; exact lt_trans hj hn)
    · rw [Graph.grad_setGrad_ne _ _ _ _ hji]
      exact Graph.grad_setGrad_eq _ _ _ (lt_trans hi hn)

/-- Effect of invoking a divide backward rule stored on node `n` of an
already-seeded graph: `self.grad` gets `other.data**-1 * g`, then
`other.grad` gets `-self.grad * other.data**-2 * g` computed from the
`self.grad` just assigned. -/
lemma runRule_div (E : ℚ → ℚ) (h : Graph) (i j n : Nat) (gr : Arr)
    (hi : i < n) (hj : j < n) (hn : n < h.nodes.length)
    (hb : (h.get n).backward = .div i j n)
    (hg : (h.get n).grad = some gr) :
    runRule E h n = some ((h.setGrad i (some (divSelfGrad (h.get j).data gr))).setGrad j
        (some (divOtherGrad (h.get j).data gr))) ∧
    (((h.setGrad i (some (divSelfGrad (h.get j).data gr))).setGrad j
        (some (divOtherGrad (h.get j).data gr))).get j).grad
      = some (divOtherGrad (h.get j).data gr) ∧
    (i ≠ j → (((h.setGrad i (some (divSelfGrad (h.get j).data gr))).setGrad j
        (some (divOtherGrad (h.get j).data gr))).get i).grad
      = some (divSelfGrad (h.get j).data gr)) := by
  have hgn1 : ((h.setGrad i (some (Arr.map2 (· * ·)
      ((h.get j).data.map (fun x => x ^ (-1 : ℤ))) gr))).get n).grad = some gr := by
    rw [Graph.grad_setGrad_ne _ _ _ _ (Nat.ne_of_lt hi)]
    exact hg
  have hgi1 : ((h.setGrad i (some (Arr.map2 (· * ·)
      ((h.get j).data.map (fun x => x ^ (-1 : ℤ))) gr))).get i).grad
      = some (Arr.map2 (· * ·) ((h.get j).data.map (fun x => x ^ (-1 : ℤ))) gr) :=
    Graph.grad_setGrad_eq _ _ _ (lt_trans hi hn)
  simp only [divSelfGrad, divOtherGrad]
  refine ⟨?_, ?_, ?_⟩
  · simp only [runRule, hb, hg, hgn1, hgi1, Graph.data_setGrad]
  · exact Graph.grad_setGrad_eq _ _ _
      (by rw [Graph.length_setGrad]; exact lt_trans hj hn)
  · intro hij
    rw [Graph.grad_setGrad_ne _ _ _ _ (Ne.symm hij)]
    exact hgi1

/-- Effect of invoking a matmul backward rule stored on node `n` of an
already-seeded graph: `self.grad` gets `g @ other.data.T`, `other.grad`
gets `self.data.T @ g`. -/
lemma runRule_matmul (E : ℚ → ℚ) (h : Graph) (i j n : Nat) (gr : Arr)
    (hi : i < n) (hj : j < n) (hn : n < h.nodes.length)
    (hb : (h.get n).backward = .matmul i j n)
    (hg : (h.get n).grad = some gr) :
    runRule E h n = some ((h.setGrad i (some (Arr.matmul gr ((h.get j).data.transpose)))).setGrad j
        (some (Arr.matmul ((h.get i).data.transpose) gr))) ∧
    (((h.setGrad i (some (Arr.matmul gr ((h.get j).data.transpose)))).setGrad j
        (some (Arr.matmul ((h.get i).data.transpose) gr))).get j).grad
      = some (Arr.matmul ((h.get i).data.transpose) gr) := by
  have hgn1 : ((h.setGrad i (some (Arr.matmul gr ((h.get j).data.transpose)))).get n).grad
      = some gr := by
    rw [Graph.grad_setGrad_ne _ _ _ _ (Nat.ne_of_lt hi)]
    exact hg
  refine ⟨?_, ?_⟩
  · simp only [runRule, hb, hg, hgn1, Graph.data_setGrad]
  · exact Graph.grad_setGrad_eq _ _ _
      (by rw [Graph.length_setGrad]; exact lt_trans hj hn)

/-- Effect of invoking an exp backward rule stored on node `n` of an
already-seeded graph: `self.grad` gets `exp(self.data) * g`. -/
lemma runRule_exp (E : ℚ → ℚ) (h : Graph) (i n : Nat) (gr : Arr)
    (hi : i < n) (hn : n < h.nodes.length)
    (hb : (h.get n).backward = .exp i n)
    (hg : (h.get n).grad = some gr) :
    runRule E h n = some (h.setGrad i (some (Arr.map2 (· * ·) ((h.get i).data.map E) gr))) ∧
    ((h.setGrad i (some (Arr.map2 (· * ·) ((h.get i).data.map E) gr))).get i).grad
        = some (Arr.map2 (· * ·) ((h.get i).data.map E) gr) := by
  refine ⟨?_, Graph.grad_setGrad_eq _ _ _ (lt_trans hi hn)⟩
  simp only [runRule, hb, hg]

lemma divT_get_lt (g : Graph) (i j k : Nat) (hk : k < g.nodes.length) :
    (divT g i j).1.get k = g.get k := by
  cases h : (g.get i).requires_grad with
  | true =>
    simp only [divT, h, if_true]
    exact get_setRule_push_lt _ _ _ _ hk
  | false =>
    simp only [divT, h, Bool.false_eq_true, if_false]
    exact Graph.get_push_lt _ _ _ hk

lemma divT_snd (g : Graph) (i j : Nat) : (divT g i j).2 = g.nodes.length := by
  cases h : (g.get i).requires_grad with
  | true =>
    simp only [divT, h, if_true]
    rfl
  | false =>
    simp only [divT, h, Bool.false_eq_true, if_false]
    rfl

lemma divT_len (g : Graph) (i j : Nat) :
    g.nodes.length < (divT g i j).1.nodes.length := by
  cases h : (g.get i).requires_grad with
  | true =>
    simp only [divT, h, if_true]
    rw [Graph.length_setRule, Graph.length_push]
    exact Nat.lt_succ_self _
  | false =>
    simp only [divT, h, Bool.false_eq_true, if_false]
    rw [Graph.length_push]
    exact Nat.lt_succ_self _

lemma subT_snd (g : Graph) (i j : Nat) : (subT g i j).2 = g.nodes.length := by
  cases h : (g.get i).requires_grad with
  | true =>
    simp only [subT, h, if_true]
    rfl
  | false =>
    simp only [subT, h, Bool.false_eq_true, if_false]
    rfl

lemma subT_len (g : Graph) (i j : Nat) :
    g.nodes.length < (subT g i j).1.nodes.length := by
  cases h : (g.get i).requires_grad with
  | true =>
    simp only [subT, h, if_true]
    rw [Graph.length_setRule, Graph.length_push]
    exact Nat.lt_succ_self _
  | false =>
    simp only [subT, h, Bool.false_eq_true, if_false]
    rw [Graph.length_push]
    exact Nat.lt_succ_self _

lemma mulT_snd (g : Graph) (i j : Nat) : (mulT g i j).2 = g.nodes.length := by
  cases h : (g.get i).requires_grad with
  | true =>
    simp only [mulT, h, if_true]
    rfl
  | false =>
    simp only [mulT, h, Bool.false_eq_true, if_false]
    rfl

lemma mulT_len (g : Graph) (i j : Nat) :
    g.nodes.length < (mulT g i j).1.nodes.length := by
  cases h : (g.get i).requires_grad with
  | true =>
    simp only [mulT, h, if_true]
    rw [Graph.length_setRule, Graph.length_push]
    exact Nat.lt_succ_self _
  | false =>
    simp only [mulT, h, Bool.false_eq_true, if_false]
    rw [Graph.length_push]
    exact Nat.lt_succ_self _

lemma matmulT_snd (g : Graph) (i j : Nat) : (matmulT g i j).2 = g.nodes.length := by
  cases h : (g.get i).requires_grad with
  | true =>
    simp only [matmulT, h, if_true]
    rfl
  | false =>
    simp only [matmulT, h, Bool.false_eq_true, if_false]
    rfl

lemma matmulT_len (g : Graph) (i j : Nat) :
    g.nodes.length < (matmulT g i j).1.nodes.length := by
  cases h : (g.get i).requires_grad with
  | true =>
    simp only [matmulT, h, if_true]
    rw [Graph.length_setRule, Graph.length_push]
    exact Nat.lt_succ_self _
  | false =>
    simp only [matmulT, h, Bool.false_eq_true, if_false]
    rw [Graph.length_push]
    exact Nat.lt_succ_self _

/-- The claim C6 property: for `out = a / b` with `a.requires_grad`, the
forward result is `a.data * b.data**-1`, and invoking the backward rule
sets `a.grad = b.data**-1 * g` and then
`b.grad = -a.grad * b.data**-2 * g` with `a.grad` as just assigned. -/
theorem claim_C6_div_rules (E : ℚ → ℚ) (g : Graph) (i j : Nat) (gr : Arr)
    (hi : i < g.nodes.length) (hj : j < g.nodes.length) (hij : i ≠ j)
    (hrg : (g.get i).requires_grad = true) :
    ((divT g i j).1.get (divT g i j).2).data
        = Arr.map2 (· * ·) (g.get i).data ((g.get j).data.map (fun x => x ^ (-1 : ℤ))) ∧
    ∃ gf, runRule E ((divT g i j).1.setGrad (divT g i j).2 (some gr)) (divT g i j).2
        = some gf ∧
      (gf.get i).grad = some (divSelfGrad (g.get j).data gr) ∧
      (gf.get j).grad = some (divOtherGrad (g.get j).data gr) := by
  have h2 : (divT g i j).2 = g.nodes.length := divT_snd g i j
  have hlen : g.nodes.length < (divT g i j).1.nodes.length := divT_len g i j
  have hout := divT_out g i j
  rw [h2] at hout
  constructor
  · rw [h2, hout, if_pos hrg]
    rfl
  · rw [h2]
    have hb : (((divT g i j).1.setGrad g.nodes.length (some gr)).get g.nodes.length).backward
        = .div i j g.nodes.length := by
      rw [Graph.backward_setGrad, hout, if_pos hrg]
    have hg : (((divT g i j).1.setGrad g.nodes.length (some gr)).get g.nodes.length).grad
        = some gr := Graph.grad_setGrad_eq _ _ _ hlen
    have hdj : (((divT g i j).1.setGrad g.nodes.length (some gr)).get j).data
        = (g.get j).data := by
      rw [Graph.data_setGrad, divT_get_lt _ _ _ _ hj]
    obtain ⟨h1, hgj, hgi⟩ := runRule_div E ((divT g i j).1.setGrad g.nodes.length (some gr))
      i j g.nodes.length gr hi hj (by rw [Graph.length_setGrad]; exact hlen) hb hg
    rw [hdj] at h1 hgj hgi
    exact ⟨_, h1, hgi hij, hgj⟩

/-- Amended claim C7: divide's backward rule assigns `self.grad` itself
before reading it, so the value written into `other.grad` is determined
by the freshly assigned `self.grad`, independent of whatever value (or
absence) `self.grad` held before the rule was invoked. -/
theorem claim_C7_overwrite (E : ℚ → ℚ) (g : Graph) (i j : Nat) (gr : Arr) (prior : Option Arr)
    (hi : i < g.nodes.length) (hj : j < g.nodes.length)
    (hrg : (g.get i).requires_grad = true) :
    ∃ gf, runRule E (((divT g i j).1.setGrad (divT g i j).2 (some gr)).setGrad i prior)
        (divT g i j).2 = some gf ∧
      (gf.get j).grad = some (divOtherGrad (g.get j).data gr) ∧
      (i ≠ j → (gf.get i).grad = some (divSelfGrad (g.get j).data gr)) := by
  have h2 : (divT g i j).2 = g.nodes.length := divT_snd g i j
  have hlen : g.nodes.length < (divT g i j).1.nodes.length := divT_len g i j
  have hout := divT_out g i j
  rw [h2] at hout
  rw [h2]
  have hb : ((((divT g i j).1.setGrad g.nodes.length (some gr)).setGrad i prior).get
      g.nodes.length).backward = .div i j g.nodes.length := by
    rw [Graph.backward_setGrad, Graph.backward_setGrad, hout, if_pos hrg]
  have hg : ((((divT g i j).1.setGrad g.nodes.length (some gr)).setGrad i prior).get
      g.nodes.length).grad = some gr := by
    rw [Graph.grad_setGrad_ne _ _ _ _ (Nat.ne_of_lt hi)]
    exact Graph.grad_setGrad_eq _ _ _ hlen
  have hdj : ((((divT g i j).1.setGrad g.nodes.length (some gr)).setGrad i prior).get j).data
      = (g.get j).data := by
    rw [Graph.data_setGrad, Graph.data_setGrad, divT_get_lt _ _ _ _ hj]
  obtain ⟨h1, hgj, hgi⟩ := runRule_div E
    (((divT g i j).1.setGrad g.nodes.length (some gr)).setGrad i prior)
    i j g.nodes.length gr hi hj
    (by rw [Graph.length_setGrad, Graph.length_setGrad]; exact hlen) hb hg
  rw [hdj] at h1 hgj hgi
  exact ⟨_, h1, hgj, hgi⟩

/-- Concrete divide graph: `a = Tensor([2.0], requires_grad=True)`,
`b = Tensor([4.0])`, `out = a / b`. -/
def c7g : Graph := ⟨[Tensor.make ⟨[1], [2]⟩ "a" true, Tensor.make ⟨[1], [4]⟩ "b" false]⟩

/-- `out = a / b` at index 2. -/
def c7p : Graph × Nat := divT c7g 0 1

/-- Seed `out.grad = [8.0]`. -/
def c7seed : Graph := c7p.1.setGrad c7p.2 (some ⟨[1], [8]⟩)

/-- Invocation with `a.grad` never populated beforehand. -/
def c7runA : Graph := (runRule id c7seed c7p.2).getD ⟨[]⟩

/-- Invocation with `a.grad` pre-populated with `[1000.0]`. -/
def c7runB : Graph := (runRule id (c7seed.setGrad 0 (some ⟨[1], [1000]⟩)) c7p.2).getD ⟨[]⟩

/-- Counterexample to claim C7: the value divide's backward rule writes
into `other.grad` is the same whether `self.grad` was unset or held
`[1000.0]` before the invocation — it does not depend on the prior
value (which would have produced `-1000 * 4**-2 * 8 = [-500.0]`), since
the rule overwrites `self.grad` before reading it. -/
theorem claim_C7_counterexample :
    (c7runA.get 1).grad = (c7runB.get 1).grad ∧
    (c7runA.get 1).grad = some ⟨[1], [-1]⟩ ∧
    (c7runB.get 1).grad ≠ some ⟨[1], [-500]⟩ := by
  obtain ⟨hA1, hAj, -⟩ := runRule_div id c7seed 0 1 2 ⟨[1], [8]⟩
    Nat.zero_lt_two Nat.one_lt_two (by decide) rfl rfl
  obtain ⟨hB1, hBj, -⟩ := runRule_div id (c7seed.setGrad 0 (some ⟨[1], [1000]⟩)) 0 1 2
    ⟨[1], [8]⟩ Nat.zero_lt_two Nat.one_lt_two (by decide) rfl rfl
  have hgA : (c7runA.get 1).grad = some (divOtherGrad (c7seed.get 1).data ⟨[1], [8]⟩) := by
    have hrA : c7runA = (c7seed.setGrad 0 (some (divSelfGrad (c7seed.get 1).data
        ⟨[1], [8]⟩))).setGrad 1 (some (divOtherGrad (c7seed.get 1).data ⟨[1], [8]⟩)) := by
      show (runRule id c7seed 2).getD ⟨[]⟩ = _
      rw [hA1]
      rfl
    rw [hrA]
    exact Graph.grad_setGrad_eq _ _ _ (by decide)
  have hdB : ((c7seed.setGrad 0 (some ⟨[1], [1000]⟩)).get 1).data = (c7seed.get 1).data :=
    Graph.data_setGrad _ _ _ _
  rw [hdB] at hB1 hBj
  have hgB : (c7runB.get 1).grad = some (divOtherGrad (c7seed.get 1).data ⟨[1], [8]⟩) := by
    have hrB : c7runB = ((c7seed.setGrad 0 (some ⟨[1], [1000]⟩)).setGrad 0
        (some (divSelfGrad (c7seed.get 1).data ⟨[1], [8]⟩))).setGrad 1
        (some (divOtherGrad (c7seed.get 1).data ⟨[1], [8]⟩)) := by
      show (runRule id (c7seed.setGrad 0 (some ⟨[1], [1000]⟩)) 2).getD ⟨[]⟩ = _
      rw [hB1]
      rfl
    rw [hrB]
    exact Graph.grad_setGrad_eq _ _ _ (by decide)
  have hval : divOtherGrad (c7seed.get 1).data ⟨[1], [8]⟩ = ⟨[1], [-1]⟩ := by
    show divOtherGrad ⟨[1], [4]⟩ ⟨[1], [8]⟩ = ⟨[1], [-1]⟩
    simp only [divOtherGrad, divSelfGrad, Arr.map2, Arr.map, Arr.neg]
    norm_num
  have hne : (⟨[1], [-1]⟩ : Arr) ≠ ⟨[1], [-500]⟩ := by
    simp only [Arr.mk.injEq, ne_eq, List.cons.injEq, and_true, true_and, not_and]
    norm_num
  refine ⟨hgA.trans hgB.symm, by rw [hgA, hval], ?_⟩
  rw [hgB, hval]
  intro hcon
  exact hne (Option.some.inj hcon)

/-- Leaf `Tensor([0.0], requires_grad=True)` in a fresh arena. -/
def c4g : Graph := ⟨[Tensor.make ⟨[1], [0]⟩ "" true]⟩

/-- Amended claim C4: for a scalar leaf `a = Tensor([0.0])` constructed
with `requires_grad=True` (the constructor default `False` leaves the
backward rule uninstalled), `exp(a).data = [1.0]` and seeding
`exp(a).grad = [1.0]` then invoking the backward rule gives
`a.grad = [1.0]`, for any exponential with `exp(0) = 1`. -/
theorem claim_C4_exp_roundtrip (E : ℚ → ℚ) (hE : E 0 = 1) :
    ((expT E c4g 0).1.get (expT E c4g 0).2).data = ⟨[1], [1]⟩ ∧
    ∃ gf, runRule E ((expT E c4g 0).1.setGrad (expT E c4g 0).2 (some ⟨[1], [1]⟩))
        (expT E c4g 0).2 = some gf ∧ (gf.get 0).grad = some ⟨[1], [1]⟩ := by
  constructor
  · show (⟨[1], [E 0]⟩ : Arr) = ⟨[1], [1]⟩
    rw [hE]
  · have hb : (((expT E c4g 0).1.setGrad (expT E c4g 0).2 (some ⟨[1], [1]⟩)).get 1).backward
        = .exp 0 1 := rfl
    have hg : (((expT E c4g 0).1.setGrad (expT E c4g 0).2 (some ⟨[1], [1]⟩)).get 1).grad
        = some ⟨[1], [1]⟩ := rfl
    obtain ⟨h1, hgi⟩ := runRule_exp E
      ((expT E c4g 0).1.setGrad (expT E c4g 0).2 (some ⟨[1], [1]⟩)) 0 1 ⟨[1], [1]⟩
      Nat.zero_lt_one (by rw [Graph.length_setGrad]; exact Nat.le.refl) hb hg
    have hmap : Arr.map2 (· * ·)
        (Arr.map E ((((expT E c4g 0).1.setGrad (expT E c4g 0).2
          (some ⟨[1], [1]⟩)).get 0).data)) ⟨[1], [1]⟩ = ⟨[1], [1]⟩ := by
      show Arr.map2 (· * ·) (Arr.map E ⟨[1], [0]⟩) ⟨[1], [1]⟩ = ⟨[1], [1]⟩
      simp [Arr.map, Arr.map2, hE]
    rw [hmap] at h1 hgi
    exact ⟨_, h1, hgi⟩

/-- A concrete stand-in for `np.exp` in the counterexample: any function
with value `1` at `0` exhibits the failure. -/
def c4E : ℚ → ℚ := fun x => x + 1

/-- Leaf `Tensor([0.0])` with constructor defaults (`requires_grad`
defaults to `False`). -/
def c4gd : Graph := ⟨[Tensor.make ⟨[1], [0]⟩]⟩

/-- `out = a.exp()` on the default-constructed leaf. -/
def c4pd : Graph × Nat := expT c4E c4gd 0

/-- Seed `out.grad = [1.0]`. -/
def c4seedd : Graph := c4pd.1.setGrad c4pd.2 (some ⟨[1], [1]⟩)

/-- Counterexample to claim C4: with the constructor defaults
(`requires_grad=False`), `exp` installs no backward rule: the forward
value is `[1.0]` but invoking the (no-op) backward rule leaves
`a.grad` unset, not `[1.0]`. -/
theorem claim_C4_counterexample :
    (c4pd.1.get c4pd.2).data = ⟨[1], [1]⟩ ∧
    (c4pd.1.get c4pd.2).backward = .noop ∧
    runRule c4E c4seedd c4pd.2 = some c4seedd ∧
    (c4seedd.get 0).grad = none ∧
    (c4seedd.get 0).grad ≠ some ⟨[1], [1]⟩ := by
  refine ⟨?_, rfl, rfl, rfl, by decide⟩
  show (⟨[1], [c4E 0]⟩ : Arr) = ⟨[1], [1]⟩
  simp only [c4E, Arr.mk.injEq, List.cons.injEq, and_true, true_and]
  norm_num

/-- The claim C10 property: with `self.requires_grad` true and
`other.requires_grad` false, the installed backward rules of subtract,
multiply, divide and matmul still write into `other.grad`. -/
theorem claim_C10_other_flag_ignored (E : ℚ → ℚ) (g : Graph) (i j : Nat) (gr : Arr)
    (hi : i < g.nodes.length) (hj : j < g.nodes.length)
    (hrg : (g.get i).requires_grad = true)
    (_hro : (g.get j).requires_grad = false) :
    (∃ gf, runRule E ((subT g i j).1.setGrad (subT g i j).2 (some gr)) (subT g i j).2
        = some gf ∧ ((gf.get j).grad).isSome = true) ∧
    (∃ gf, runRule E ((mulT g i j).1.setGrad (mulT g i j).2 (some gr)) (mulT g i j).2
        = some gf ∧ ((gf.get j).grad).isSome = true) ∧
    (∃ gf, runRule E ((divT g i j).1.setGrad (divT g i j).2 (some gr)) (divT g i j).2
        = some gf ∧ ((gf.get j).grad).isSome = true) ∧
    (∃ gf, runRule E ((matmulT g i j).1.setGrad (matmulT g i j).2 (some gr)) (matmulT g i j).2
        = some gf ∧ ((gf.get j).grad).isSome = true) := by
  refine ⟨?_, ?_, ?_, ?_⟩
  · have h2 : (subT g i j).2 = g.nodes.length := subT_snd g i j
    have hlen : g.nodes.length < (subT g i j).1.nodes.length := subT_len g i j
    have hout := subT_out g i j
    rw [h2] at hout
    rw [h2]
    have hb : (((subT g i j).1.setGrad g.nodes.length (some gr)).get g.nodes.length).backward
        = .sub i j g.nodes.length := by
      rw [Graph.backward_setGrad, hout, if_pos hrg]
    have hg : (((subT g i j).1.setGrad g.nodes.length (some gr)).get g.nodes.length).grad
        = some gr := Graph.grad_setGrad_eq _ _ _ hlen
    obtain ⟨h1, hgj, -⟩ := runRule_sub E ((subT g i j).1.setGrad g.nodes.length (some gr))
      i j g.nodes.length gr hi hj (by rw [Graph.length_setGrad]; exact hlen) hb hg
    exact ⟨_, h1, by rw [hgj]; rfl⟩
  · have h2 : (mulT g i j).2 = g.nodes.length := mulT_snd g i j
    have hlen : g.nodes.length < (mulT g i j).1.nodes.length := mulT_len g i j
    have hout := mulT_out g i j
    rw [h2] at hout
    rw [h2]
    have hb : ((mulT g i j).1.get g.nodes.length).backward = .mul i j g.nodes.length := by
      rw [hout, if_pos hrg]
    obtain ⟨h1, -, hgj⟩ := runRule_mul E (mulT g i j).1 i j g.nodes.length gr hi hj hlen hb
    exact ⟨_, h1, by rw [hgj]; rfl⟩
  · have h2 : (divT g i j).2 = g.nodes.length := divT_snd g i j
    have hlen : g.nodes.length < (divT g i j).1.nodes.length := divT_len g i j
    have hout := divT_out g i j
    rw [h2] at hout
    rw [h2]
    have hb : (((divT g i j).1.setGrad g.nodes.length (some gr)).get g.nodes.length).backward
        = .div i j g.nodes.length := by
      rw [Graph.backward_setGrad, hout, if_pos hrg]
    have hg : (((divT g i j).1.setGrad g.nodes.length (some gr)).get g.nodes.length).grad
        = some gr := Graph.grad_setGrad_eq _ _ _ hlen
    obtain ⟨h1, hgj, -⟩ := runRule_div E ((divT g i j).1.setGrad g.nodes.length (some gr))
      i j g.nodes.length gr hi hj (by rw [Graph.length_setGrad]; exact hlen) hb hg
    exact ⟨_, h1, by rw [hgj]; rfl⟩
  · have h2 : (matmulT g i j).2 = g.nodes.length := matmulT_snd g i j
    have hlen : g.nodes.length < (matmulT g i j).1.nodes.length := matmulT_len g i j
    have hout := matmulT_out g i j
    rw [h2] at hout
    rw [h2]
    have hb : (((matmulT g i j).1.setGrad g.nodes.length (some gr)).get
        g.nodes.length).backward = .matmul i j g.nodes.length := by
      rw [Graph.backward_setGrad, hout, if_pos hrg]
    have hg : (((matmulT g i j).1.setGrad g.nodes.length (some gr)).get g.nodes.length).grad
        = some gr := Graph.grad_setGrad_eq _ _ _ hlen
    obtain ⟨h1, hgj⟩ := runRule_matmul E ((matmulT g i j).1.setGrad g.nodes.length (some gr))
      i j g.nodes.length gr hi hj (by rw [Graph.length_setGrad]; exact hlen) hb hg
    exact ⟨_, h1, by rw [hgj]; rfl⟩

/-- Concrete two-leaf arena used to instantiate the generic claim
theorems: `a = Tensor([2.0], requires_grad=True)`,
`b = Tensor([3.0])`. -/
def gW : Graph := ⟨[Tensor.make ⟨[1], [2]⟩ "a" true, Tensor.make ⟨[1], [3]⟩ "b" false]⟩

theorem claim_C1_witness :
    (0 < gW.nodes.length ∧ 1 < gW.nodes.length ∧ (gW.get 0).requires_grad = true) ∧
    (∃ gf, runRule id ((mulT gW 0 1).1.setGrad (mulT gW 0 1).2 (some ⟨[1], [5]⟩))
        (mulT gW 0 1).2 = some gf ∧
      (gf.get 0).grad = some (Arr.neg ⟨[1], [5]⟩) ∧
      (gf.get 1).grad = some (Arr.neg ⟨[1], [5]⟩)) :=
  ⟨⟨by decide, by decide, by decide⟩,
   claim_C1_mul_backward id gW 0 1 ⟨[1], [5]⟩ (by decide) (by decide) (by decide)⟩

theorem claim_C2_witness :
    (0 < gW.nodes.length ∧ 1 < gW.nodes.length) ∧
    (∃ gf, runRule id ((addT gW 0 1).1.setGrad (addT gW 0 1).2 (some ⟨[1], [7]⟩))
        (addT gW 0 1).2 = some gf ∧
      (gf.get 0).grad = some ⟨[1], [7]⟩ ∧ (gf.get 1).grad = some ⟨[1], [7]⟩ ∧
      ((gW.get 0).data.shape = (⟨[1], [7]⟩ : Arr).shape →
        (gf.get 0).grad.map Arr.shape = some (gf.get 0).data.shape) ∧
      ((gW.get 1).data.shape = (⟨[1], [7]⟩ : Arr).shape →
        (gf.get 1).grad.map Arr.shape = some (gf.get 1).data.shape)) :=
  ⟨⟨by decide, by decide⟩,
   claim_C2_grad_shape_amended id gW 0 1 ⟨[1], [7]⟩ (by decide) (by decide)⟩

theorem claim_C4_witness :
    c4E 0 = 1 ∧
    (((expT c4E c4g 0).1.get (expT c4E c4g 0).2).data = ⟨[1], [1]⟩ ∧
     ∃ gf, runRule c4E ((expT c4E c4g 0).1.setGrad (expT c4E c4g 0).2 (some ⟨[1], [1]⟩))
        (expT c4E c4g 0).2 = some gf ∧ (gf.get 0).grad = some ⟨[1], [1]⟩) :=
  ⟨by norm_num [c4E], claim_C4_exp_roundtrip c4E (by norm_num [c4E])⟩

theorem claim_C6_witness :
    (0 < gW.nodes.length ∧ 1 < gW.nodes.length ∧ (0 : Nat) ≠ 1 ∧
      (gW.get 0).requires_grad = true) ∧
    (((divT gW 0 1).1.get (divT gW 0 1).2).data
        = Arr.map2 (· * ·) (gW.get 0).data ((gW.get 1).data.map (fun x => x ^ (-1 : ℤ))) ∧
     ∃ gf, runRule id ((divT gW 0 1).1.setGrad (divT gW 0 1).2 (some ⟨[1], [8]⟩))
        (divT gW 0 1).2 = some gf ∧
       (gf.get 0).grad = some (divSelfGrad (gW.get 1).data ⟨[1], [8]⟩) ∧
       (gf.get 1).grad = some (divOtherGrad (gW.get 1).data ⟨[1], [8]⟩)) :=
  ⟨⟨by decide, by decide, by decide, by decide⟩,
   claim_C6_div_rules id gW 0 1 ⟨[1], [8]⟩ (by decide) (by decide) (by decide) (by decide)⟩

theorem claim_C7_witness :
    (0 < gW.nodes.length ∧ 1 < gW.nodes.length ∧ (gW.get 0).requires_grad = true) ∧
    (∃ gf, runRule id (((divT gW 0 1).1.setGrad (divT gW 0 1).2 (some ⟨[1], [8]⟩)).setGrad 0
        (some ⟨[1], [99]⟩)) (divT gW 0 1).2 = some gf ∧
      (gf.get 1).grad = some (divOtherGrad (gW.get 1).data ⟨[1], [8]⟩) ∧
      ((0 : Nat) ≠ 1 → (gf.get 0).grad = some (divSelfGrad (gW.get 1).data ⟨[1], [8]⟩))) :=
  ⟨⟨by decide, by decide, by decide⟩,
   claim_C7_overwrite id gW 0 1 ⟨[1], [8]⟩ (some ⟨[1], [99]⟩) (by decide) (by decide) (by decide)⟩

theorem claim_C10_witness :
    (0 < gW.nodes.length ∧ 1 < gW.nodes.length ∧ (gW.get 0).requires_grad = true ∧
      (gW.get 1).requires_grad = false) ∧
    ((∃ gf, runRule id ((subT gW 0 1).1.setGrad (subT gW 0 1).2 (some ⟨[1], [5]⟩))
        (subT gW 0 1).2 = some gf ∧ ((gf.get 1).grad).isSome = true) ∧
     (∃ gf, runRule id ((mulT gW 0 1).1.setGrad (mulT gW 0 1).2 (some ⟨[1], [5]⟩))
        (mulT gW 0 1).2 = some gf ∧ ((gf.get 1).grad).isSome = true) ∧
     (∃ gf, runRule id ((divT gW 0 1).1.setGrad (divT gW 0 1).2 (some ⟨[1], [5]⟩))
        (divT gW 0 1).2 = some gf ∧ ((gf.get 1).grad).isSome = true) ∧
     (∃ gf, runRule id ((matmulT gW 0 1).1.setGrad (matmulT gW 0 1).2 (some ⟨[1], [5]⟩))
        (matmulT gW 0 1).2 = some gf ∧ ((gf.get 1).grad).isSome = true)) :=
  ⟨⟨by decide, by decide, by decide, by decide⟩,
   claim_C10_other_flag_ignored id gW 0 1 ⟨[1], [5]⟩ (by decide) (by decide) (by decide)
     (by decide)⟩

lemma insertNew_mem {α : Type} [DecidableEq α] (a b : α) (l : List α) :
    a ∈ insertNew b l ↔ a = b ∨ a ∈ l := by
  unfold insertNew
  split
  · constructor
    · exact fun h => Or.inr h
    · rintro (rfl | h)
      · assumption
      · exact h
  · exact List.mem_cons

lemma avoid_not_mem {g : Graph} {S : List Nat} {v u : Nat}
    (h : AvoidReach g S v u) : v ∉ S := by
  cases h <;> assumption

lemma avoid_anti {g : Graph} {S T : List Nat} (hsub : ∀ w, w ∈ S → w ∈ T) {v u : Nat}
    (h : AvoidReach g T v u) : AvoidReach g S v u := by
  induction h with
  | refl v hv => exact .refl v (fun hm => hv (hsub _ hm))
  | step v c u hv hc _ ih => exact .step v c u (fun hm => hv (hsub _ hm)) hc ih

lemma avoid_trans_edge {g : Graph} {S : List Nat} {a w : Nat}
    (h1 : AvoidReach g S a w) :
    ∀ {c u : Nat}, c ∈ (g.get w).components → AvoidReach g S c u → AvoidReach g S a u := by
  induction h1 with
  | refl v hv => exact fun hc h2 => .step v _ _ hv hc h2
  | step v c1 u1 hv hc1 _ ih => exact fun hc h2 => .step v c1 _ hv hc1 (ih hc h2)

lemma avoid_absorb {g : Graph} {S T : List Nat} {c : Nat}
    (hT : ∀ w, w ∈ T ↔ (w ∈ S ∨ AvoidReach g S c w)) {x u : Nat}
    (h : AvoidReach g S x u) : AvoidReach g T x u ∨ AvoidReach g S c u := by
  induction h with
  | refl v hv =>
    by_cases hr : AvoidReach g S c v
    · exact Or.inr hr
    · refine Or.inl (.refl v ?_)
      intro hm
      rcases (hT v).mp hm with hm' | hm'
      · exact hv hm'
      · exact hr hm'
  | step v c2 u hv hc2 _ ih =>
    rcases ih with ih | ih
    · by_cases hr : AvoidReach g S c v
      · have hc2u : AvoidReach g S c2 u :=
          avoid_anti (fun w hw => (hT w).mpr (Or.inl hw)) ih
        exact Or.inr (avoid_trans_edge hr hc2 hc2u)
      · refine Or.inl (.step v c2 u ?_ hc2 ih)
        intro hm
        rcases (hT v).mp hm with hm' | hm'
        · exact hv hm'
        · exact hr hm'
    · exact Or.inr ih

lemma comps_lt {g : Graph} (hwf : WF g) {v c : Nat}
    (hc : c ∈ (g.get v).components) : c < v := by
  by_cases hv : v < g.nodes.length
  · exact hwf v hv c hc
  · rw [Graph.get_default g v (Nat.le_of_not_lt hv)] at hc
    simp [defaultTensor, Tensor.make] at hc

lemma avoid_cons_of_lt {g : Graph} (hwf : WF g) {S : List Nat} {v x u : Nat}
    (h : AvoidReach g S x u) : x < v → AvoidReach g (v :: S) x u := by
  induction h with
  | refl y hy =>
    intro hyv
    refine .refl y ?_
    intro hm
    rcases List.mem_cons.mp hm with rfl | hm'
    · exact Nat.lt_irrefl _ hyv
    · exact hy hm'
  | step y c u hy hc _ ih =>
    intro hyv
    refine .step y c u ?_ hc (ih (lt_trans (comps_lt hwf hc) hyv))
    intro hm
    rcases List.mem_cons.mp hm with rfl | hm'
    · exact Nat.lt_irrefl _ hyv
    · exact hy hm'

lemma avoid_nil_iff {g : Graph} {v u : Nat} :
    AvoidReach g [] v u ↔ Reaches g v u := by
  constructor
  · intro h
    induction h with
    | refl v _ => exact .refl v
    | step v c u _ hc _ ih => exact .step v c u hc ih
  · intro h
    induction h with
    | refl v => exact .refl v (List.not_mem_nil v)
    | step v c u hc _ ih => exact .step v c u (List.not_mem_nil v) hc ih

/-- Full characterization of the depth-first walk `build`: starting from
any accumulator, the visited set gains exactly the nodes reachable from
`v` along paths avoiding the incoming visited set, the edge set gains
exactly the operand edges of those nodes, and the visited set stays
duplicate-free.  Fuel exceeding `v` suffices on a well-formed arena
because operand indices strictly decrease. -/
lemma build_char (g : Graph) (hwf : WF g) :
    ∀ fuel v ns es, v < fuel →
      ((∀ u, u ∈ (build g fuel v (ns, es)).1 ↔ u ∈ ns ∨ AvoidReach g ns v u) ∧
       (∀ e, e ∈ (build g fuel v (ns, es)).2 ↔
          e ∈ es ∨ ∃ u, AvoidReach g ns v u ∧ e.1 ∈ (g.get u).components ∧ e.2 = u) ∧
       (ns.Nodup → (build g fuel v (ns, es)).1.Nodup)) := by
  intro fuel
  induction fuel with
  | zero => exact fun v ns es hv => absurd hv (Nat.not_lt_zero v)
  | succ fuel ih =>
    intro v ns es hv
    by_cases hmem : v ∈ ns
    · have hred : build g (fuel + 1) v (ns, es) = (ns, es) := by
        simp [build, hmem]
      rw [hred]
      refine ⟨?_, ?_, fun h => h⟩
      · intro u
        constructor
        · exact Or.inl
        · rintro (h | h)
          · exact h
          · exact absurd hmem (avoid_not_mem h)
      · intro e
        constructor
        · exact Or.inl
        · rintro (h | ⟨u, hr, _, _⟩)
          · exact h
          · exact absurd hmem (avoid_not_mem hr)
    · have hred : build g (fuel + 1) v (ns, es) =
          ((g.get v).components).foldl
            (fun acc2 c => build g fuel c (acc2.1, insertNew (c, v) acc2.2))
            (v :: ns, es) := by
        simp [build, hmem]
      have inner : ∀ (cs : List Nat), (∀ c ∈ cs, c < fuel) →
          ∀ (acc : List Nat × List (Nat × Nat)),
          ((∀ u, u ∈ (cs.foldl (fun acc2 c => build g fuel c
              (acc2.1, insertNew (c, v) acc2.2)) acc).1 ↔
            u ∈ acc.1 ∨ ∃ c ∈ cs, AvoidReach g acc.1 c u) ∧
           (∀ e, e ∈ (cs.foldl (fun acc2 c => build g fuel c
              (acc2.1, insertNew (c, v) acc2.2)) acc).2 ↔
            e ∈ acc.2 ∨ (∃ c ∈ cs, e = (c, v)) ∨
              ∃ c ∈ cs, ∃ u, AvoidReach g acc.1 c u ∧ e.1 ∈ (g.get u).components ∧ e.2 = u) ∧
           (acc.1.Nodup → (cs.foldl (fun acc2 c => build g fuel c
              (acc2.1, insertNew (c, v) acc2.2)) acc).1.Nodup)) := by
        intro cs
        induction cs with
        | nil =>
          intro _ acc
          refine ⟨fun u => ?_, fun e => ?_, fun h => h⟩
          · simp
          · simp
        | cons c cs ihc =>
          intro hlt acc
          have hcf : c < fuel := hlt c (List.mem_cons_self c cs)
          have hcsf : ∀ c' ∈ cs, c' < fuel := fun c' h => hlt c' (List.mem_cons_of_mem c h)
          obtain ⟨Bn, Be, Bd⟩ := ih c acc.1 (insertNew (c, v) acc.2) hcf
          obtain ⟨Fn, Fe, Fd⟩ := ihc hcsf (build g fuel c (acc.1, insertNew (c, v) acc.2))
          rw [List.foldl_cons]
          have conv1 : ∀ c' u, AvoidReach g (build g fuel c
              (acc.1, insertNew (c, v) acc.2)).1 c' u → AvoidReach g acc.1 c' u :=
            fun c' u h => avoid_anti (fun w hw => (Bn w).mpr (Or.inl hw)) h
          have conv2 : ∀ c' u, AvoidReach g acc.1 c' u →
              AvoidReach g (build g fuel c (acc.1, insertNew (c, v) acc.2)).1 c' u ∨
              AvoidReach g acc.1 c u :=
            fun c' u h => avoid_absorb Bn h
          refine ⟨fun u => ?_, fun e => ?_, fun h => Fd (Bd h)⟩
          · constructor
            · intro h
              rcases (Fn u).mp h with h | ⟨c', hc', h⟩
              · rcases (Bn u).mp h with h | h
                · exact Or.inl h
                · exact Or.inr ⟨c, List.mem_cons_self c cs, h⟩
              · exact Or.inr ⟨c', List.mem_cons_of_mem c hc', conv1 c' u h⟩
            · rintro (h | ⟨c', hc', h⟩)
              · exact (Fn u).mpr (Or.inl ((Bn u).mpr (Or.inl h)))
              · rcases List.mem_cons.mp hc' with rfl | hcs'
                · exact (Fn u).mpr (Or.inl ((Bn u).mpr (Or.inr h)))
                · rcases conv2 c' u h with h' | h'
                  · exact (Fn u).mpr (Or.inr ⟨c', hcs', h'⟩)
                  · exact (Fn u).mpr (Or.inl ((Bn u).mpr (Or.inr h')))
          · constructor
            · intro h
              rcases (Fe e).mp h with h | ⟨c', hc', he⟩ | ⟨c', hc', u, hr, h1, h2⟩
              · rcases (Be e).mp h with h | ⟨u, hr, h1, h2⟩
                · rcases (insertNew_mem e (c, v) acc.2).mp h with rfl | h
                  · exact Or.inr (Or.inl ⟨c, List.mem_cons_self c cs, rfl⟩)
                  · exact Or.inl h
                · exact Or.inr (Or.inr ⟨c, List.mem_cons_self c cs, u, hr, h1, h2⟩)
              · exact Or.inr (Or.inl ⟨c', List.mem_cons_of_mem c hc', he⟩)
              · exact Or.inr (Or.inr ⟨c', List.mem_cons_of_mem c hc', u, conv1 c' u hr, h1, h2⟩)
            · rintro (hE | ⟨c', hc', he⟩ | ⟨c', hc', u, hr, h1, h2⟩)
              · exact (Fe e).mpr (Or.inl ((Be e).mpr (Or.inl
                  ((insertNew_mem e (c, v) acc.2).mpr (Or.inr hE)))))
              · rcases List.mem_cons.mp hc' with rfl | hcs'
                · exact (Fe e).mpr (Or.inl ((Be e).mpr (Or.inl
                    ((insertNew_mem e (c', v) acc.2).mpr (Or.inl he)))))
                · exact (Fe e).mpr (Or.inr (Or.inl ⟨c', hcs', he⟩))
              · rcases List.mem_cons.mp hc' with rfl | hcs'
                · exact (Fe e).mpr (Or.inl ((Be e).mpr (Or.inr ⟨u, hr, h1, h2⟩)))
                · rcases conv2 c' u hr with h' | h'
                  · exact (Fe e).mpr (Or.inr (Or.inr ⟨c', hcs', u, h', h1, h2⟩))
                  · exact (Fe e).mpr (Or.inl ((Be e).mpr (Or.inr ⟨u, h', h1, h2⟩)))
      rw [hred]
      have hlts : ∀ c ∈ (g.get v).components, c < fuel :=
        fun c hc => lt_of_lt_of_le (comps_lt hwf hc) (Nat.lt_succ_iff.mp hv)
      obtain ⟨In, Ie, Id⟩ := inner ((g.get v).components) hlts (v :: ns, es)
      refine ⟨fun u => ?_, fun e => ?_, fun h => Id (List.nodup_cons.mpr ⟨hmem, h⟩)⟩
      · constructor
        · intro h
          rcases (In u).mp h with h | ⟨c, hc, h⟩
          · rcases List.mem_cons.mp h with rfl | h'
            · exact Or.inr (.refl u hmem)
            · exact Or.inl h'
          · have h' : AvoidReach g ns c u :=
              avoid_anti (fun w hw => List.mem_cons_of_mem v hw) h
            exact Or.inr (.step v c u hmem hc h')
        · rintro (h | h)
          · exact (In u).mpr (Or.inl (List.mem_cons_of_mem v h))
          · cases h with
            | refl _ hv' => exact (In v).mpr (Or.inl (List.mem_cons_self v ns))
            | step _ c _ hv' hc h' =>
              exact (In u).mpr (Or.inr ⟨c, hc,
                avoid_cons_of_lt hwf h' (comps_lt hwf hc)⟩)
      · constructor
        · intro h
          rcases (Ie e).mp h with h | ⟨c, hc, he⟩ | ⟨c, hc, u, hr, h1, h2⟩
          · exact Or.inl h
          · refine Or.inr ⟨v, .refl v hmem, ?_, ?_⟩
            · rw [he]
              exact hc
            · rw [he]
          · have hr' : AvoidReach g ns c u :=
              avoid_anti (fun w hw => List.mem_cons_of_mem v hw) hr
            exact Or.inr ⟨u, .step v c u hmem hc hr', h1, h2⟩
        · rintro (h | ⟨u, hr, h1, h2⟩)
          · exact (Ie e).mpr (Or.inl h)
          · cases hr with
            | refl _ hv' =>
              refine (Ie e).mpr (Or.inr (Or.inl ⟨e.1, h1, ?_⟩))
              rw [← h2]
            | step _ c _ hv' hc hr' =>
              exact (Ie e).mpr (Or.inr (Or.inr ⟨c, hc, u,
                avoid_cons_of_lt hwf hr' (comps_lt hwf hc), h1, h2⟩))

/-- Diamond graph: leaf `a`, `l = a + 2`, `r = a + 3`, `root = l + r`,
two distinct paths from `root` (index 5) to the shared leaf `a`
(index 0). -/
def dG0 : Graph := ⟨[Tensor.make ⟨[1], [1]⟩ "a" true]⟩

/-- `l = a + 2` (coerced constant at index 1, sum at index 2). -/
def dP1 : Graph × Nat := addS dG0 0 2

/-- `r = a + 3` (coerced constant at index 3, sum at index 4). -/
def dP2 : Graph × Nat := addS dP1.1 0 3

/-- `root = l + r` at index 5. -/
def dP3 : Graph × Nat := addT dP2.1 dP1.2 dP2.2

/-- The completed diamond arena. -/
def diamond : Graph := dP3.1

/-- The diamond's root index. -/
def dRoot : Nat := dP3.2

/-- The claim C8 property: on any well-formed arena with sufficient
fuel, `trace` returns exactly the reachable node set (each node once)
and exactly the (operand, consumer) edge set; on the diamond graph the
shared leaf is visited once and both edges into it are recorded. -/
theorem claim_C8_trace_reachable :
    (∀ (g : Graph) (fuel root : Nat), WF g → root < fuel →
      ((∀ u, u ∈ (trace g fuel root).1 ↔ Reaches g root u) ∧
       (∀ e, e ∈ (trace g fuel root).2 ↔
          ∃ u, Reaches g root u ∧ e.1 ∈ (g.get u).components ∧ e.2 = u) ∧
       (trace g fuel root).1.Nodup)) ∧
    ((trace diamond 6 dRoot).1.count 0 = 1 ∧
     (0, 2) ∈ (trace diamond 6 dRoot).2 ∧ (0, 4) ∈ (trace diamond 6 dRoot).2 ∧
     (trace diamond 6 dRoot).2.countP (fun e => e.1 == 0) = 2) := by
  constructor
  · intro g fuel root hwf hfuel
    obtain ⟨hn, he, hd⟩ := build_char g hwf fuel root [] [] hfuel
    refine ⟨fun u => ?_, fun e => ?_, hd List.nodup_nil⟩
    · rw [trace]
      rw [hn u]
      simp only [List.not_mem_nil, false_or]
      exact avoid_nil_iff
    · rw [trace]
      rw [he e]
      simp only [List.not_mem_nil, false_or]
      constructor
      · rintro ⟨u, hr, h1, h2⟩
        exact ⟨u, avoid_nil_iff.mp hr, h1, h2⟩
      · rintro ⟨u, hr, h1, h2⟩
        exact ⟨u, avoid_nil_iff.mpr hr, h1, h2⟩
  · refine ⟨?_, ?_, ?_, ?_⟩ <;> decide

theorem claim_C8_witness :
    (WF diamond ∧ dRoot < 6) ∧
    ((∀ u, u ∈ (trace diamond 6 dRoot).1 ↔ Reaches diamond dRoot u) ∧
     (∀ e, e ∈ (trace diamond 6 dRoot).2 ↔
        ∃ u, Reaches diamond dRoot u ∧ e.1 ∈ (diamond.get u).components ∧ e.2 = u) ∧
     (trace diamond 6 dRoot).1.Nodup) :=
  ⟨⟨by decide, by decide⟩, claim_C8_trace_reachable.1 diamond 6 dRoot (by decide) (by decide)⟩

end TensorTools
